import Mathlib

/-!
Verification development for the Pixel Art Studio editor (src/src/App.jsx).

The component's live state, the grid operations, the two-stack undo/redo
history, the palette operations, the JSON serializer and the PNG exporter
are embedded as pure Lean functions.  React's `setX` updater calls are
modelled as explicit state transformation: each event handler becomes a
function `AppState → AppState`.

Modelling notes, stated once here:
* JavaScript array cells normally hold either a color string or `null`;
  cells are modelled as `Option String` (`none` = empty).  An imported
  document may in principle carry arbitrary JSON values in its `pixels`
  array; a non-string entry is decoded to an empty cell by `jcell`.
* An out-of-range write `next[i] = color` would extend a JS array with
  holes; `List.set` leaves the list unchanged instead.  All claims below
  quantify over in-range cells only, where the two agree exactly.
* JSON numbers are modelled as `Int` (the document format stores integer
  sizes).  Canvas line widths are modelled as exact rationals, so the
  source's `ctx.lineWidth = 0.02` becomes `(1 / 50 : ℚ)`.
-/

namespace PixelArt

/-- The three drawing tools of the editor (`pas:tool`). -/
inductive Tool where
  | pen
  | eraser
  | eyedropper
deriving DecidableEq

/-- The live component state: grid size, flat pixel buffer (length
`size * size` in every state the editor itself produces), current color,
palette, active tool, and the two history stacks.  Stacks grow at the
list's end, mirroring the JS `[...s, prev]` push. -/
structure AppState where
  size : Nat
  pixels : List (Option String)
  currentColor : String
  palette : List String
  tool : Tool
  undoStack : List (List (Option String))
  redoStack : List (List (Option String))
deriving DecidableEq

/-- `const clamp = (n, min, max) => Math.max(min, Math.min(max, n));` -/
def clamp (n lo hi : Int) : Int := max lo (min hi n)

/-- `const idx = (x, y) => y * size + x;` -/
def idx (size x y : Nat) : Nat := y * size + x

/-- `pushHistory(prev)`: append the given snapshot to the undo stack and
clear the redo stack.  In the source every caller passes the current
render's `pixels`, so the snapshot argument is taken from the state. -/
def pushHistory (st : AppState) : AppState :=
  { st with undoStack := st.undoStack ++ [st.pixels], redoStack := [] }

/-- `handlePaint(x, y, color)`: the functional `setPixels` update.  If the
target cell already holds exactly `color` the buffer is returned
unchanged; otherwise the cell is overwritten on a copy. -/
def handlePaint (size : Nat) (px : List (Option String)) (x y : Nat)
    (color : Option String) : List (Option String) :=
  match px[idx size x y]? with
  | some v => if v = color then px else px.set (idx size x y) color
  | none => px.set (idx size x y) color

/-- `onPointerDown(e, x, y)`: push one history snapshot, then act by tool.
The eyedropper reads the cell (white when empty or out of range, the JS
`?? "#ffffff"`), sets it as current color and switches to the pen. -/
def onPointerDown (st : AppState) (x y : Nat) : AppState :=
  let st1 := pushHistory st
  match st.tool with
  | Tool.pen =>
      { st1 with pixels := handlePaint st.size st.pixels x y (some st.currentColor) }
  | Tool.eraser =>
      { st1 with pixels := handlePaint st.size st.pixels x y none }
  | Tool.eyedropper =>
      let c := (st.pixels.getD (idx st.size x y) none).getD "#ffffff"
      { st1 with currentColor := c, tool := Tool.pen }

/-- `onPointerEnter(e, x, y)` during a drag (`drawingRef.current` true):
paint or erase the entered cell; the eyedropper does nothing here. -/
def onPointerEnter (st : AppState) (x y : Nat) : AppState :=
  match st.tool with
  | Tool.pen =>
      { st with pixels := handlePaint st.size st.pixels x y (some st.currentColor) }
  | Tool.eraser =>
      { st with pixels := handlePaint st.size st.pixels x y none }
  | Tool.eyedropper => st

/-- `clearAll()`: push history, then set every cell to empty. -/
def clearAll (st : AppState) : AppState :=
  let st1 := pushHistory st
  { st1 with pixels := List.replicate (st1.size * st1.size) none }

/-- `fillBackground()`: push history, then set every cell to the current
color. -/
def fillBackground (st : AppState) : AppState :=
  let st1 := pushHistory st
  { st1 with pixels := List.replicate (st1.size * st1.size) (some st1.currentColor) }

/-- `undo()`: no-op on an empty undo stack; otherwise pop its top, append
the live buffer to the redo stack and restore the popped snapshot. -/
def undo (st : AppState) : AppState :=
  match st.undoStack.getLast? with
  | none => st
  | some prev =>
      { st with pixels := prev,
                undoStack := st.undoStack.dropLast,
                redoStack := st.redoStack ++ [st.pixels] }

/-- `redo()`: symmetric to `undo`. -/
def redo (st : AppState) : AppState :=
  match st.redoStack.getLast? with
  | none => st
  | some nxt =>
      { st with pixels := nxt,
                redoStack := st.redoStack.dropLast,
                undoStack := st.undoStack ++ [st.pixels] }

/-- One pointer-down-to-pointer-up gesture: the pressed cell plus the
cells entered while dragging. -/
structure Gesture where
  x : Nat
  y : Nat
  drag : List (Nat × Nat)

/-- Run a full gesture: `onPointerDown` on the pressed cell, then
`onPointerEnter` on each dragged-over cell in order. -/
def applyGesture (st : AppState) (g : Gesture) : AppState :=
  g.drag.foldl (fun s p => onPointerEnter s p.1 p.2) (onPointerDown st g.x g.y)

/-- A discrete committed action: a pointer gesture, Clear, or Fill. -/
inductive Action where
  | gesture (g : Gesture)
  | clear
  | fill

/-- Apply one committed action to the state. -/
def applyAction (st : AppState) : Action → AppState
  | Action.gesture g => applyGesture st g
  | Action.clear => clearAll st
  | Action.fill => fillBackground st

/-- The `useEffect` on `[size]`: if the stored buffer's length is not
`size * size`, replace it with an all-empty buffer of that length (the JS
also replaces a non-array value, which cannot arise in this typed model);
otherwise keep it. -/
def normalizePixels (size : Nat) (px : List (Option String)) : List (Option String) :=
  if px.length ≠ size * size then List.replicate (size * size) none else px

/-- The grid-size input handler plus the reset effect: clamp the new size
to [2,256], store it, and normalize the pixel buffer against it. -/
def resize (st : AppState) (n : Int) : AppState :=
  let s := (clamp n 2 256).toNat
  { st with size := s, pixels := normalizePixels s st.pixels }

/-- `new Set([currentColor, ...p])` iteration order: keep the first
occurrence of each element, dropping later duplicates.  `seen` is the set
of elements already emitted. -/
def dedupKeepFirst (seen : List String) : List String → List String
  | [] => []
  | x :: xs =>
      if x ∈ seen then dedupKeepFirst seen xs
      else x :: dedupKeepFirst (x :: seen) xs

/-- The Add-to-palette handler:
`setPalette((p) => Array.from(new Set([currentColor, ...p])).slice(0, 24))`. -/
def addToPalette (c : String) (p : List String) : List String :=
  (dedupKeepFirst [] (c :: p)).take 24

/-- A parsed JSON value, as produced by `JSON.parse` (numbers as `Int`). -/
inductive JVal where
  | null
  | bool (b : Bool)
  | num (n : Int)
  | str (s : String)
  | arr (xs : List JVal)
  | obj (fields : List (String × JVal))

/-- First binding of a key in a JSON object's field list. -/
def lookupField : List (String × JVal) → String → Option JVal
  | [], _ => none
  | (k, v) :: rest, key => if k = key then some v else lookupField rest key

/-- JS property access `data.k`: a field lookup on objects, `undefined`
(here `none`) on every other value. -/
def getField (data : JVal) (k : String) : Option JVal :=
  match data with
  | JVal.obj fs => lookupField fs k
  | _ => none

/-- JS truthiness of a parsed JSON value (the `!data` guard). -/
def truthy : JVal → Bool
  | JVal.null => false
  | JVal.bool b => b
  | JVal.num n => n != 0
  | JVal.str s => s != ""
  | JVal.arr _ => true
  | JVal.obj _ => true

/-- Whether `typeof v === "number"` holds for a field lookup result. -/
def isNum : Option JVal → Bool
  | some (JVal.num _) => true
  | _ => false

/-- Whether `Array.isArray(v)` holds for a field lookup result. -/
def isArr : Option JVal → Bool
  | some (JVal.arr _) => true
  | _ => false

/-- Decode one imported pixel entry into a cell: a JSON string is a
color, anything else (in practice `null`) is an empty cell. -/
def jcell : JVal → Option String
  | JVal.str s => some s
  | _ => none

/-- Decode one imported palette entry (in practice always a string). -/
def jstrD : JVal → String
  | JVal.str s => s
  | _ => ""

/-- Encode a cell for export: `null` for empty, the color string
otherwise. -/
def encCell : Option String → JVal
  | none => JVal.null
  | some s => JVal.str s

/-- `exportJSON()`'s payload
`{version: 1, size, pixels, palette, meta: {createdAt}}`. -/
def exportJSON (st : AppState) (createdAt : Int) : JVal :=
  JVal.obj [("version", JVal.num 1),
            ("size", JVal.num (st.size : Int)),
            ("pixels", JVal.arr (st.pixels.map encCell)),
            ("palette", JVal.arr (st.palette.map JVal.str)),
            ("meta", JVal.obj [("createdAt", JVal.num createdAt)])]

/-- `importJSON`'s reader callback.  `none` stands for a file whose text
fails `JSON.parse`.  The returned Bool records whether the
`alert("Invalid JSON file")` fired.  Validation requires a truthy parse
result with a numeric `size` field and an array `pixels` field; on
success the size is clamped to [2,256], the pixel buffer is replaced with
the imported array (its length is NOT checked against size²), and the
palette is replaced only when an array `palette` field is present. -/
def importJSON : AppState → Option JVal → AppState × Bool
  | st, none => (st, true)
  | st, some data =>
      match getField data "size", getField data "pixels" with
      | some (JVal.num n), some (JVal.arr px) =>
          if truthy data then
            let st1 := { st with size := (clamp n 2 256).toNat,
                                 pixels := px.map jcell }
            match getField data "palette" with
            | some (JVal.arr pal) => ({ st1 with palette := pal.map jstrD }, false)
            | _ => (st1, false)
          else (st, true)
      | _, _ => (st, true)

/-- The same validation condition as a Boolean predicate, mirroring
`!data || typeof data.size !== "number" || !Array.isArray(data.pixels)`. -/
def importValid : Option JVal → Bool
  | none => false
  | some data =>
      truthy data && isNum (getField data "size") && isArr (getField data "pixels")

/-- One 2D-canvas drawing command issued by `exportPNG` (line widths as
exact rationals). -/
inductive DrawCmd where
  | fillStyle (c : String)
  | fillRect (x y w h : Nat)
  | strokeStyle (c : String)
  | lineWidth (w : ℚ)
  | beginPath
  | moveTo (x y : Nat)
  | lineTo (x y : Nat)
  | stroke
  | drawImage (w h : Nat)
deriving DecidableEq

/-- The per-cell fill loop of `exportPNG`: one unit rectangle for each
cell whose value is truthy (a non-empty string). -/
def paintCmds (size : Nat) (px : List (Option String)) : List DrawCmd :=
  (List.range size).flatMap fun y =>
    (List.range size).flatMap fun x =>
      match px.getD (idx size x y) none with
      | some c => if c = "" then [] else [DrawCmd.fillStyle c, DrawCmd.fillRect x y 1 1]
      | none => []

/-- The grid overlay loop: for each `i` in `0..size` one vertical and one
horizontal stroked line at the integer boundary `i`. -/
def gridCmds (size : Nat) : List DrawCmd :=
  (List.range (size + 1)).flatMap fun i =>
    [DrawCmd.beginPath, DrawCmd.moveTo i 0, DrawCmd.lineTo i size, DrawCmd.stroke,
     DrawCmd.beginPath, DrawCmd.moveTo 0 i, DrawCmd.lineTo size i, DrawCmd.stroke]

/-- `Math.max(1, Math.floor(512 / size))`, the nearest-neighbor upscale
factor. -/
def upscaleFactor (size : Nat) : Nat := max 1 (512 / size)

/-- The full command stream of `exportPNG(withGrid)`: white background,
cell fills, the optional grid overlay (stroke `#e5e7eb`, line width 0.02),
then the upscaling `drawImage` onto the output canvas. -/
def exportPNG (size : Nat) (px : List (Option String)) (withGrid : Bool) : List DrawCmd :=
  [DrawCmd.fillStyle "#ffffff", DrawCmd.fillRect 0 0 size size]
    ++ paintCmds size px
    ++ (if withGrid then
          [DrawCmd.strokeStyle "#e5e7eb", DrawCmd.lineWidth (1 / 50)] ++ gridCmds size
        else [])
    ++ [DrawCmd.drawImage (size * upscaleFactor size) (size * upscaleFactor size)]

/-! ### Helper lemmas about the history stacks -/

theorem onPointerEnter_undoStack (st : AppState) (x y : Nat) :
    (onPointerEnter st x y).undoStack = st.undoStack := by
  unfold onPointerEnter
  split <;> rfl

theorem onPointerEnter_redoStack (st : AppState) (x y : Nat) :
    (onPointerEnter st x y).redoStack = st.redoStack := by
  unfold onPointerEnter
  split <;> rfl

theorem foldl_enter_undoStack (ps : List (Nat × Nat)) (st : AppState) :
    (ps.foldl (fun s p => onPointerEnter s p.1 p.2) st).undoStack = st.undoStack := by
  induction ps generalizing st with
  | nil => rfl
  | cons p ps ih => rw [List.foldl_cons, ih, onPointerEnter_undoStack]

theorem foldl_enter_redoStack (ps : List (Nat × Nat)) (st : AppState) :
    (ps.foldl (fun s p => onPointerEnter s p.1 p.2) st).redoStack = st.redoStack := by
  induction ps generalizing st with
  | nil => rfl
  | cons p ps ih => rw [List.foldl_cons, ih, onPointerEnter_redoStack]

theorem onPointerDown_undoStack (st : AppState) (x y : Nat) :
    (onPointerDown st x y).undoStack = st.undoStack ++ [st.pixels] := by
  unfold onPointerDown
  split <;> rfl

theorem onPointerDown_redoStack (st : AppState) (x y : Nat) :
    (onPointerDown st x y).redoStack = [] := by
  unfold onPointerDown
  split <;> rfl

theorem applyAction_undoStack (st : AppState) (a : Action) :
    (applyAction st a).undoStack = st.undoStack ++ [st.pixels] := by
  cases a with
  | gesture g =>
      show (applyGesture st g).undoStack = _
      unfold applyGesture
      rw [foldl_enter_undoStack, onPointerDown_undoStack]
  | clear => rfl
  | fill => rfl

theorem applyAction_redoStack (st : AppState) (a : Action) :
    (applyAction st a).redoStack = [] := by
  cases a with
  | gesture g =>
      show (applyGesture st g).redoStack = _
      unfold applyGesture
      rw [foldl_enter_redoStack, onPointerDown_redoStack]
  | clear => rfl
  | fill => rfl

theorem undo_of_concat (st : AppState) (l : List (List (Option String)))
    (p : List (Option String)) (h : st.undoStack = l ++ [p]) :
    undo st = { st with pixels := p, undoStack := l,
                        redoStack := st.redoStack ++ [st.pixels] } := by
  unfold undo
  rw [h, List.getLast?_concat, List.dropLast_concat]

theorem undo_of_nil (st : AppState) (h : st.undoStack = []) : undo st = st := by
  unfold undo
  rw [h]
  rfl

theorem redo_of_concat (st : AppState) (l : List (List (Option String)))
    (p : List (Option String)) (h : st.redoStack = l ++ [p]) :
    redo st = { st with pixels := p, redoStack := l,
                        undoStack := st.undoStack ++ [st.pixels] } := by
  unfold redo
  rw [h, List.getLast?_concat, List.dropLast_concat]

theorem redo_of_nil (st : AppState) (h : st.redoStack = []) : redo st = st := by
  unfold redo
  rw [h]
  rfl

/-! ### Helper lemmas about painting -/

theorem idx_lt (size x y : Nat) (hx : x < size) (hy : y < size) :
    idx size x y < size * size := by
  have h1 : y * size + x < (y + 1) * size := by
    rw [Nat.succ_mul]
    omega
  have h2 : (y + 1) * size ≤ size * size :=
    Nat.mul_le_mul_right size (Nat.succ_le_of_lt hy)
  exact Nat.lt_of_lt_of_le h1 h2

theorem handlePaint_of_holds (size x y : Nat) (px : List (Option String))
    (c : Option String) (h : px[idx size x y]? = some c) :
    handlePaint size px x y c = px := by
  unfold handlePaint
  rw [h]
  simp

theorem handlePaint_getElem (size x y : Nat) (px : List (Option String))
    (c : Option String) (h : idx size x y < px.length) :
    (handlePaint size px x y c)[idx size x y]? = some c := by
  unfold handlePaint
  rw [List.getElem?_eq_getElem h]
  split
  · next v heq =>
      split
      · next hvc =>
          rw [List.getElem?_eq_getElem h]
          injection heq with heq2
          rw [heq2, hvc]
      · exact List.getElem?_set_self h
  · exact List.getElem?_set_self h

/-! ### Claim theorems -/

/-- Claim C1: after any single committed action (a pointer gesture, clear
or fill), `undo` restores the exact pre-action pixel buffer, and `redo`
immediately afterwards restores the exact post-action buffer; `undo` on
an empty undo stack and `redo` on an empty redo stack are no-ops. -/
theorem undo_redo_roundtrip (st : AppState) (a : Action)
    (s1 : AppState) (h1 : s1.undoStack = [])
    (s2 : AppState) (h2 : s2.redoStack = []) :
    (undo (applyAction st a)).pixels = st.pixels
    ∧ (redo (undo (applyAction st a))).pixels = (applyAction st a).pixels
    ∧ undo s1 = s1
    ∧ redo s2 = s2 := by
  have hu := undo_of_concat (applyAction st a) st.undoStack st.pixels
    (applyAction_undoStack st a)
  have hr : (undo (applyAction st a)).redoStack = [] ++ [(applyAction st a).pixels] := by
    rw [hu, applyAction_redoStack st a]
  have hredo := redo_of_concat (undo (applyAction st a)) [] (applyAction st a).pixels hr
  refine ⟨by rw [hu], by rw [hredo], undo_of_nil s1 h1, redo_of_nil s2 h2⟩

/-- Claim C2: committing a new edit (`pushHistory`, called at the start
of every pointer gesture, clear and fill) clears the redo stack, so after
any committed action the redo stack holds no stale entries. -/
theorem redo_cleared_on_commit (st : AppState) (a : Action) :
    (pushHistory st).redoStack = [] ∧ (applyAction st a).redoStack = [] :=
  ⟨rfl, applyAction_redoStack st a⟩

/-- Claim C3: for an in-range cell, painting it with the value it already
holds returns the buffer unchanged; painting twice with the same value
equals painting once; otherwise the cell is replaced with the new value
while every other position is untouched; and a drag paint step never
touches the history stacks (history is pushed per gesture by the
caller). -/
theorem paint_idempotent_noop (size x y : Nat) (px : List (Option String))
    (c : Option String) (hx : x < size) (hy : y < size)
    (hlen : px.length = size * size) :
    (px[idx size x y]? = some c → handlePaint size px x y c = px)
    ∧ handlePaint size (handlePaint size px x y c) x y c = handlePaint size px x y c
    ∧ (handlePaint size px x y c)[idx size x y]? = some c
    ∧ (∀ j, j ≠ idx size x y → (handlePaint size px x y c)[j]? = px[j]?)
    ∧ ∀ st : AppState, (onPointerEnter st x y).undoStack = st.undoStack
        ∧ (onPointerEnter st x y).redoStack = st.redoStack := by
  have hi : idx size x y < px.length := by
    rw [hlen]; exact idx_lt size x y hx hy
  refine ⟨handlePaint_of_holds size x y px c,
          handlePaint_of_holds size x y _ c (handlePaint_getElem size x y px c hi),
          handlePaint_getElem size x y px c hi, ?_, fun st =>
          ⟨onPointerEnter_undoStack st x y, onPointerEnter_redoStack st x y⟩⟩
  intro j hj
  unfold handlePaint
  split
  · split
    · rfl
    · exact List.getElem?_set_ne (Ne.symm hj)
  · exact List.getElem?_set_ne (Ne.symm hj)

/-- Claim C10: every pointer-down gesture pushes exactly one snapshot and
clears the redo stack even when it changes nothing (an eyedropper pick,
or repainting a cell with its existing color), and `undo` right after the
pointer-down restores the pre-gesture buffer — identical to the live one
when the gesture changed nothing. -/
theorem pointerDown_always_records (st : AppState) (x y : Nat) :
    (onPointerDown st x y).undoStack = st.undoStack ++ [st.pixels]
    ∧ (onPointerDown st x y).redoStack = []
    ∧ (undo (onPointerDown st x y)).pixels = st.pixels
    ∧ (st.tool = Tool.eyedropper → (onPointerDown st x y).pixels = st.pixels)
    ∧ (st.tool = Tool.pen → st.pixels[idx st.size x y]? = some (some st.currentColor) →
        (onPointerDown st x y).pixels = st.pixels)
    ∧ ((onPointerDown st x y).pixels = st.pixels →
        (undo (onPointerDown st x y)).pixels = (onPointerDown st x y).pixels) := by
  have hu := undo_of_concat (onPointerDown st x y) st.undoStack st.pixels
    (onPointerDown_undoStack st x y)
  refine ⟨onPointerDown_undoStack st x y, onPointerDown_redoStack st x y,
          by rw [hu], ?_, ?_, ?_⟩
  · intro ht
    unfold onPointerDown
    rw [ht]
    rfl
  · intro ht hc
    unfold onPointerDown
    rw [ht]
    show handlePaint st.size st.pixels x y (some st.currentColor) = st.pixels
    exact handlePaint_of_holds st.size x y st.pixels _ hc
  · intro hsame
    rw [hu, hsame]

theorem clamp_coe_eq (N : Nat) (h2 : 2 ≤ N) (h256 : N ≤ 256) :
    (clamp (N : Int) 2 256).toNat = N := by
  unfold clamp
  omega

/-- Claim C4: for every N in [2,256], after a size change to N the live
buffer has length exactly N·N — kept as-is when its length already is
N·N, replaced by an all-empty buffer of that length otherwise. -/
theorem resize_length_invariant (st : AppState) (N : Nat)
    (h2 : 2 ≤ N) (h256 : N ≤ 256) :
    (resize st (N : Int)).size = N
    ∧ ((resize st (N : Int)).pixels).length = N * N
    ∧ (st.pixels.length = N * N → (resize st (N : Int)).pixels = st.pixels)
    ∧ (st.pixels.length ≠ N * N →
        (resize st (N : Int)).pixels = List.replicate (N * N) none) := by
  have hc := clamp_coe_eq N h2 h256
  unfold resize
  rw [hc]
  refine ⟨rfl, ?_, ?_, ?_⟩
  · show (normalizePixels N st.pixels).length = N * N
    unfold normalizePixels
    split
    · exact List.length_replicate _ _
    · omega
  · intro h
    show normalizePixels N st.pixels = st.pixels
    unfold normalizePixels
    rw [if_neg (by omega)]
  · intro h
    show normalizePixels N st.pixels = List.replicate (N * N) none
    unfold normalizePixels
    rw [if_pos h]

/-! ### Helper lemmas about palette deduplication -/

theorem mem_dedupKeepFirst {seen l : List String} {x : String}
    (h : x ∈ dedupKeepFirst seen l) : x ∈ l ∧ x ∉ seen := by
  induction l generalizing seen with
  | nil => cases h
  | cons a as ih =>
      unfold dedupKeepFirst at h
      split at h
      · have hx := ih h
        exact ⟨List.mem_cons_of_mem a hx.1, hx.2⟩
      · next ha =>
          rcases List.mem_cons.mp h with heq | h2
          · exact ⟨List.mem_cons.mpr (Or.inl heq), by rw [heq]; exact ha⟩
          · have hx := ih h2
            exact ⟨List.mem_cons_of_mem a hx.1,
                   fun hs => hx.2 (List.mem_cons_of_mem a hs)⟩

theorem nodup_dedupKeepFirst (seen l : List String) :
    (dedupKeepFirst seen l).Nodup := by
  induction l generalizing seen with
  | nil => exact List.nodup_nil
  | cons a as ih =>
      unfold dedupKeepFirst
      split
      · exact ih seen
      · refine List.nodup_cons.mpr ⟨?_, ih (a :: seen)⟩
        intro hmem
        exact (mem_dedupKeepFirst hmem).2 (List.mem_cons_self a seen)

theorem sublist_dedupKeepFirst (seen l : List String) :
    (dedupKeepFirst seen l).Sublist l := by
  induction l generalizing seen with
  | nil => exact List.Sublist.refl []
  | cons a as ih =>
      unfold dedupKeepFirst
      split
      · exact (ih seen).cons a
      · exact (ih (a :: seen)).cons₂ a

theorem dedupKeepFirst_of_nodup (seen : List String) {l : List String}
    (hd : l.Nodup) (hs : ∀ x ∈ l, x ∉ seen) :
    dedupKeepFirst seen l = l := by
  induction l generalizing seen with
  | nil => rfl
  | cons a as ih =>
      unfold dedupKeepFirst
      rw [if_neg (hs a (List.mem_cons_self a as))]
      congr 1
      refine ih (a :: seen) (List.Nodup.of_cons hd) ?_
      intro x hx hmem
      rcases List.mem_cons.mp hmem with rfl | h2
      · exact (List.nodup_cons.mp hd).1 hx
      · exact hs x (List.mem_cons_of_mem a hx) h2

/-- Claim C8: adding the current color to the palette puts it first,
deduplicates (so the result has no duplicates and repeating the same add
changes nothing), preserves the relative order of the other entries, and
caps the length at 24. -/
theorem addToPalette_spec (c : String) (p : List String) :
    (addToPalette c p).head? = some c
    ∧ (addToPalette c p).Nodup
    ∧ (addToPalette c p).tail.Sublist p
    ∧ (addToPalette c p).length ≤ 24
    ∧ addToPalette c (addToPalette c p) = addToPalette c p := by
  have e : dedupKeepFirst [] (c :: p) = c :: dedupKeepFirst [c] p := by
    rw [dedupKeepFirst, if_neg (List.not_mem_nil c)]
  have ht : ∀ l : List String, (c :: l).take 24 = c :: l.take 23 := fun _ => rfl
  have htail : addToPalette c p = c :: (dedupKeepFirst [c] p).take 23 := by
    unfold addToPalette
    rw [e, ht]
  have hnodupt : (dedupKeepFirst [c] p).Nodup := nodup_dedupKeepFirst [c] p
  refine ⟨by rw [htail]; rfl, ?_, ?_, ?_, ?_⟩
  · show ((dedupKeepFirst [] (c :: p)).take 24).Nodup
    exact (nodup_dedupKeepFirst [] (c :: p)).sublist (List.take_sublist 24 _)
  · rw [htail]
    show ((dedupKeepFirst [c] p).take 23).Sublist p
    exact (List.take_sublist 23 _).trans (sublist_dedupKeepFirst [c] p)
  · exact List.length_take_le 24 _
  · rw [htail]
    have h23 : dedupKeepFirst [c] ((dedupKeepFirst [c] p).take 23)
        = (dedupKeepFirst [c] p).take 23 := by
      refine dedupKeepFirst_of_nodup [c] (hnodupt.sublist (List.take_sublist 23 _)) ?_
      intro x hx
      exact (mem_dedupKeepFirst ((List.take_sublist 23 _).mem hx)).2
    show (dedupKeepFirst [] (c :: c :: (dedupKeepFirst [c] p).take 23)).take 24
        = c :: (dedupKeepFirst [c] p).take 23
    have e2 : dedupKeepFirst [] (c :: c :: (dedupKeepFirst [c] p).take 23)
        = c :: (dedupKeepFirst [c] p).take 23 := by
      rw [dedupKeepFirst, if_neg (List.not_mem_nil c)]
      rw [dedupKeepFirst, if_pos (List.mem_cons_self c []), h23]
    rw [e2, ht, List.take_take]
    rfl

/-! ### Helper lemmas about the serializer -/

theorem jcell_encCell (l : List (Option String)) : (l.map encCell).map jcell = l := by
  induction l with
  | nil => rfl
  | cons a as ih => cases a <;> simp [encCell, jcell, ih]

theorem jstrD_str (l : List String) : (l.map JVal.str).map jstrD = l := by
  induction l with
  | nil => rfl
  | cons a as ih => simp [jstrD, ih]

/-- Claim C5: an import whose parsed value is rejected by the validation
(`!data`, non-numeric `size`, or non-array `pixels` — or a failed parse,
modelled as `none`) fires the alert and leaves the whole live state
unchanged. -/
theorem import_invalid_atomic (st : AppState) (raw : Option JVal)
    (h : importValid raw = false) : importJSON st raw = (st, true) := by
  cases raw with
  | none => rfl
  | some data =>
      simp only [importValid] at h
      simp only [importJSON]
      cases hs : getField data "size" with
      | none => rfl
      | some v =>
          cases v with
          | num n =>
              cases hp : getField data "pixels" with
              | none => rfl
              | some w =>
                  cases w with
                  | arr px =>
                      rw [hs, hp] at h
                      simp only [isNum, isArr, Bool.and_true] at h
                      simp [h]
                  | null => rfl
                  | bool b => rfl
                  | num m => rfl
                  | str s => rfl
                  | obj fs => rfl
          | null => rfl
          | bool b => rfl
          | str s => rfl
          | arr xs => rfl
          | obj fs => rfl

/-- Claim C6: a validated import clamps the imported size into [2,256],
replaces the pixel buffer with the imported array regardless of its
length, and replaces the palette exactly when an array-typed `palette`
field is present. -/
theorem import_valid_replaces (st : AppState) (data : JVal) (n : Int)
    (px : List JVal) (ht : truthy data = true)
    (hn : getField data "size" = some (JVal.num n))
    (hp : getField data "pixels" = some (JVal.arr px)) :
    (importJSON st (some data)).2 = false
    ∧ (importJSON st (some data)).1.size = (clamp n 2 256).toNat
    ∧ 2 ≤ (importJSON st (some data)).1.size
    ∧ (importJSON st (some data)).1.size ≤ 256
    ∧ (importJSON st (some data)).1.pixels = px.map jcell
    ∧ (∀ pal, getField data "palette" = some (JVal.arr pal) →
        (importJSON st (some data)).1.palette = pal.map jstrD)
    ∧ (isArr (getField data "palette") = false →
        (importJSON st (some data)).1.palette = st.palette) := by
  have hbounds : 2 ≤ (clamp n 2 256).toNat ∧ (clamp n 2 256).toNat ≤ 256 := by
    unfold clamp
    omega
  cases hq : getField data "palette" with
  | none =>
      have hred : importJSON st (some data) =
          ({ st with size := (clamp n 2 256).toNat, pixels := px.map jcell }, false) := by
        simp only [importJSON, hn, hp, ht, eq_self_iff_true, if_true, hq]
      rw [hred]
      refine ⟨rfl, rfl, hbounds.1, hbounds.2, rfl, ?_, fun _ => rfl⟩
      intro pal hpal
      cases hpal
  | some v =>
      cases v with
      | arr pal =>
          have hred : importJSON st (some data) =
              ({ st with size := (clamp n 2 256).toNat, pixels := px.map jcell,
                         palette := pal.map jstrD }, false) := by
            simp only [importJSON, hn, hp, ht, eq_self_iff_true, if_true, hq]
          rw [hred]
          refine ⟨rfl, rfl, hbounds.1, hbounds.2, rfl, ?_, ?_⟩
          · intro pal2 hpal
            injection hpal with hv
            injection hv with hl
            rw [hl]
          · intro hfalse
            simp [isArr] at hfalse
      | null =>
          have hred : importJSON st (some data) =
              ({ st with size := (clamp n 2 256).toNat, pixels := px.map jcell }, false) := by
            simp only [importJSON, hn, hp, ht, eq_self_iff_true, if_true, hq]
          rw [hred]
          refine ⟨rfl, rfl, hbounds.1, hbounds.2, rfl, ?_, fun _ => rfl⟩
          intro pal hpal
          injection hpal with hv
          cases hv
      | bool b =>
          have hred : importJSON st (some data) =
              ({ st with size := (clamp n 2 256).toNat, pixels := px.map jcell }, false) := by
            simp only [importJSON, hn, hp, ht, eq_self_iff_true, if_true, hq]
          rw [hred]
          refine ⟨rfl, rfl, hbounds.1, hbounds.2, rfl, ?_, fun _ => rfl⟩
          intro pal hpal
          injection hpal with hv
          cases hv
      | num m =>
          have hred : importJSON st (some data) =
              ({ st with size := (clamp n 2 256).toNat, pixels := px.map jcell }, false) := by
            simp only [importJSON, hn, hp, ht, eq_self_iff_true, if_true, hq]
          rw [hred]
          refine ⟨rfl, rfl, hbounds.1, hbounds.2, rfl, ?_, fun _ => rfl⟩
          intro pal hpal
          injection hpal with hv
          cases hv
      | str s =>
          have hred : importJSON st (some data) =
              ({ st with size := (clamp n 2 256).toNat, pixels := px.map jcell }, false) := by
            simp only [importJSON, hn, hp, ht, eq_self_iff_true, if_true, hq]
          rw [hred]
          refine ⟨rfl, rfl, hbounds.1, hbounds.2, rfl, ?_, fun _ => rfl⟩
          intro pal hpal
          injection hpal with hv
          cases hv
      | obj fs =>
          have hred : importJSON st (some data) =
              ({ st with size := (clamp n 2 256).toNat, pixels := px.map jcell }, false) := by
            simp only [importJSON, hn, hp, ht, eq_self_iff_true, if_true, hq]
          rw [hred]
          refine ⟨rfl, rfl, hbounds.1, hbounds.2, rfl, ?_, fun _ => rfl⟩
          intro pal hpal
          injection hpal with hv
          cases hv

/-- Claim C7: importing the payload produced by `exportJSON` (into any
live state) restores exactly the exported size, pixel buffer and palette,
provided the exported size is in [2,256]. -/
theorem export_import_roundtrip (st tgt : AppState) (t : Int)
    (h2 : 2 ≤ st.size) (h256 : st.size ≤ 256) :
    (importJSON tgt (some (exportJSON st t))).2 = false
    ∧ (importJSON tgt (some (exportJSON st t))).1.size = st.size
    ∧ (importJSON tgt (some (exportJSON st t))).1.pixels = st.pixels
    ∧ (importJSON tgt (some (exportJSON st t))).1.palette = st.palette := by
  have hred : importJSON tgt (some (exportJSON st t)) =
      ({ tgt with size := (clamp (st.size : Int) 2 256).toNat,
                  pixels := (st.pixels.map encCell).map jcell,
                  palette := (st.palette.map JVal.str).map jstrD }, false) := by
    simp only [importJSON, exportJSON]
    rfl
  rw [hred]
  refine ⟨rfl, ?_, jcell_encCell st.pixels, jstrD_str st.palette⟩
  show (clamp (st.size : Int) 2 256).toNat = st.size
  exact clamp_coe_eq st.size h2 h256

/-! ### Helper lemmas about the PNG exporter -/

theorem lineWidth_not_mem_paintCmds (size : Nat) (px : List (Option String)) (w : ℚ) :
    DrawCmd.lineWidth w ∉ paintCmds size px := by
  intro h
  simp only [paintCmds, List.mem_flatMap] at h
  obtain ⟨y, -, x, -, hmem⟩ := h
  revert hmem
  split
  · split
    · simp
    · simp
  · simp

theorem lineWidth_not_mem_gridCmds (size : Nat) (w : ℚ) :
    DrawCmd.lineWidth w ∉ gridCmds size := by
  intro h
  simp only [gridCmds, List.mem_flatMap] at h
  obtain ⟨i, -, hmem⟩ := h
  simp at hmem

theorem lineWidth_mem_export (size : Nat) (px : List (Option String)) (w : ℚ)
    (hw : DrawCmd.lineWidth w ∈ exportPNG size px true) : w = 1 / 50 := by
  have h1 := lineWidth_not_mem_paintCmds size px w
  have h2 := lineWidth_not_mem_gridCmds size w
  simp [exportPNG, h1, h2] at hw
  rw [one_div]
  exact hw

theorem lineWidth_self_mem_export (size : Nat) (px : List (Option String)) :
    DrawCmd.lineWidth (1 / 50) ∈ exportPNG size px true := by
  simp [exportPNG]

theorem strokeStyle_mem_export (size : Nat) (px : List (Option String)) :
    DrawCmd.strokeStyle "#e5e7eb" ∈ exportPNG size px true := by
  simp [exportPNG]

/-- Claim C9 (counterexample): the claim says the grid overlay draws lines
exactly 1 unit wide; for a 2×2 all-empty grid the with-grid export issues
no width-1 line command — the only line width it sets is 0.02. -/
theorem gridline_width_counterexample :
    DrawCmd.lineWidth 1 ∉ exportPNG 2 (List.replicate 4 none) true
    ∧ DrawCmd.lineWidth (1 / 50) ∈ exportPNG 2 (List.replicate 4 none) true := by
  constructor
  · intro h
    have h150 := lineWidth_mem_export 2 (List.replicate 4 none) 1 h
    norm_num at h150
  · exact lineWidth_self_mem_export 2 (List.replicate 4 none)

/-- Claim C9 (amended): with gridlines requested, the exporter overlays
lines 0.02 units wide — every line-width command in the stream sets
exactly 0.02 — at every integer boundary (for each i ≤ size one vertical
and one horizontal line) in the fixed light-gray stroke #e5e7eb, over the
N×N bitmap before the upscaling draw. -/
theorem gridline_overlay_amended (size : Nat) (px : List (Option String))
    (i : Nat) (hi : i ≤ size) :
    (∀ w, DrawCmd.lineWidth w ∈ exportPNG size px true → w = 1 / 50)
    ∧ DrawCmd.strokeStyle "#e5e7eb" ∈ exportPNG size px true
    ∧ DrawCmd.lineWidth (1 / 50) ∈ exportPNG size px true
    ∧ DrawCmd.moveTo i 0 ∈ exportPNG size px true
    ∧ DrawCmd.lineTo i size ∈ exportPNG size px true
    ∧ DrawCmd.moveTo 0 i ∈ exportPNG size px true
    ∧ DrawCmd.lineTo size i ∈ exportPNG size px true
    ∧ (exportPNG size px true).getLast? =
        some (DrawCmd.drawImage (size * upscaleFactor size) (size * upscaleFactor size)) := by
  have hrange : i ∈ List.range (size + 1) := List.mem_range.mpr (by omega)
  have hmv : DrawCmd.moveTo i 0 ∈ gridCmds size := by
    simp only [gridCmds, List.mem_flatMap]
    exact ⟨i, hrange, by simp⟩
  have hlv : DrawCmd.lineTo i size ∈ gridCmds size := by
    simp only [gridCmds, List.mem_flatMap]
    exact ⟨i, hrange, by simp⟩
  have hmh : DrawCmd.moveTo 0 i ∈ gridCmds size := by
    simp only [gridCmds, List.mem_flatMap]
    exact ⟨i, hrange, by simp⟩
  have hlh : DrawCmd.lineTo size i ∈ gridCmds size := by
    simp only [gridCmds, List.mem_flatMap]
    exact ⟨i, hrange, by simp⟩
  refine ⟨fun w hw => lineWidth_mem_export size px w hw,
         strokeStyle_mem_export size px,
         lineWidth_self_mem_export size px, ?_, ?_, ?_, ?_, ?_⟩
  · simp [exportPNG, hmv]
  · simp [exportPNG, hlv]
  · simp [exportPNG, hmh]
  · simp [exportPNG, hlh]
  · have hpre : exportPNG size px true =
        ([DrawCmd.fillStyle "#ffffff", DrawCmd.fillRect 0 0 size size]
          ++ paintCmds size px
          ++ (if true then [DrawCmd.strokeStyle "#e5e7eb", DrawCmd.lineWidth (1 / 50)]
                ++ gridCmds size else []))
          ++ [DrawCmd.drawImage (size * upscaleFactor size) (size * upscaleFactor size)] := rfl
    rw [hpre, List.getLast?_concat]

/-! ### Concrete states and witness theorems -/

/-- A small concrete live state (2×2 grid, one red cell) for the witness
theorems. -/
def demo : AppState :=
  { size := 2, pixels := [none, some "#ef4444", none, none],
    currentColor := "#1f2937", palette := ["#000000", "#ffffff"],
    tool := Tool.pen, undoStack := [], redoStack := [] }

/-- A malformed import document: `size` is a string. -/
def badDoc : JVal :=
  JVal.obj [("size", JVal.str "huge"), ("pixels", JVal.arr [])]

/-- A well-formed import document whose pixel count (2) does not match
its clamped size (300 → 256, so 256² cells would be expected). -/
def oddDoc : JVal :=
  JVal.obj [("size", JVal.num 300),
            ("pixels", JVal.arr [JVal.str "#ff0000", JVal.null])]

/-- Witness for the undo/redo round-trip at a concrete state and a Clear
action. -/
theorem undo_redo_roundtrip_witness :
    (undo (applyAction demo Action.clear)).pixels = demo.pixels
    ∧ (redo (undo (applyAction demo Action.clear))).pixels
        = (applyAction demo Action.clear).pixels
    ∧ undo demo = demo
    ∧ redo demo = demo :=
  undo_redo_roundtrip demo Action.clear demo rfl demo rfl

/-- Witness for the paint no-op/idempotence facts at cell (1,0) of the
concrete 2×2 state. -/
theorem paint_idempotent_noop_witness :
    handlePaint 2 (handlePaint 2 demo.pixels 1 0 (some "#ef4444")) 1 0 (some "#ef4444")
        = handlePaint 2 demo.pixels 1 0 (some "#ef4444")
    ∧ (handlePaint 2 demo.pixels 1 0 (some "#ef4444"))[idx 2 1 0]? = some (some "#ef4444")
    ∧ (handlePaint 2 demo.pixels 1 0 (some "#ef4444"))[0]? = demo.pixels[0]? := by
  have T := paint_idempotent_noop 2 1 0 demo.pixels (some "#ef4444")
    (by decide) (by decide) (by decide)
  exact ⟨T.2.1, T.2.2.1, T.2.2.2.1 0 (by decide)⟩

/-- Witness for the resize invariant: resizing the 2×2 demo state to 3
replaces the buffer with nine empty cells. -/
theorem resize_length_invariant_witness :
    (resize demo (3 : Int)).size = 3
    ∧ ((resize demo (3 : Int)).pixels).length = 3 * 3
    ∧ (resize demo (3 : Int)).pixels = List.replicate (3 * 3) none := by
  have T := resize_length_invariant demo 3 (by decide) (by decide)
  exact ⟨T.1, T.2.1, T.2.2.2 (by decide)⟩

/-- Witness for import-failure atomicity on a document whose `size` field
is a string. -/
theorem import_invalid_atomic_witness :
    importJSON demo (some badDoc) = (demo, true) :=
  import_invalid_atomic demo (some badDoc) rfl

/-- Witness for the validated-import behavior on a document whose pixel
count does not match its clamped size. -/
theorem import_valid_replaces_witness :
    (importJSON demo (some oddDoc)).2 = false
    ∧ (importJSON demo (some oddDoc)).1.size = (clamp 300 2 256).toNat
    ∧ 2 ≤ (importJSON demo (some oddDoc)).1.size
    ∧ (importJSON demo (some oddDoc)).1.size ≤ 256
    ∧ (importJSON demo (some oddDoc)).1.pixels
        = [JVal.str "#ff0000", JVal.null].map jcell
    ∧ (importJSON demo (some oddDoc)).1.palette = demo.palette := by
  have T := import_valid_replaces demo oddDoc 300 [JVal.str "#ff0000", JVal.null]
    rfl rfl rfl
  exact ⟨T.1, T.2.1, T.2.2.1, T.2.2.2.1, T.2.2.2.2.1, T.2.2.2.2.2.2 rfl⟩

/-- Witness for the export/import round-trip on the concrete demo
state. -/
theorem export_import_roundtrip_witness :
    (importJSON demo (some (exportJSON demo 0))).2 = false
    ∧ (importJSON demo (some (exportJSON demo 0))).1.size = demo.size
    ∧ (importJSON demo (some (exportJSON demo 0))).1.pixels = demo.pixels
    ∧ (importJSON demo (some (exportJSON demo 0))).1.palette = demo.palette :=
  export_import_roundtrip demo demo 0 (by decide) (by decide)

/-- Witness for the amended gridline overlay facts on a 2×2 export at
boundary i = 1. -/
theorem gridline_overlay_amended_witness :
    DrawCmd.strokeStyle "#e5e7eb" ∈ exportPNG 2 (List.replicate 4 none) true
    ∧ DrawCmd.lineWidth (1 / 50) ∈ exportPNG 2 (List.replicate 4 none) true
    ∧ DrawCmd.moveTo 1 0 ∈ exportPNG 2 (List.replicate 4 none) true
    ∧ DrawCmd.lineTo 1 2 ∈ exportPNG 2 (List.replicate 4 none) true
    ∧ DrawCmd.moveTo 0 1 ∈ exportPNG 2 (List.replicate 4 none) true
    ∧ DrawCmd.lineTo 2 1 ∈ exportPNG 2 (List.replicate 4 none) true
    ∧ (exportPNG 2 (List.replicate 4 none) true).getLast?
        = some (DrawCmd.drawImage (2 * upscaleFactor 2) (2 * upscaleFactor 2)) := by
  have T := gridline_overlay_amended 2 (List.replicate 4 none) 1 (by decide)
  exact ⟨T.2.1, T.2.2.1, T.2.2.2.1, T.2.2.2.2.1, T.2.2.2.2.2.1,
         T.2.2.2.2.2.2.1, T.2.2.2.2.2.2.2⟩

/-- Witness for the pointer-down recording facts: a pen press on the demo
state, and an eyedropper press that changes no pixels. -/
theorem pointerDown_always_records_witness :
    (onPointerDown demo 1 0).undoStack = demo.undoStack ++ [demo.pixels]
    ∧ (undo (onPointerDown demo 1 0)).pixels = demo.pixels
    ∧ (onPointerDown { demo with tool := Tool.eyedropper } 0 0).pixels
        = ({ demo with tool := Tool.eyedropper } : AppState).pixels := by
  have T1 := pointerDown_always_records demo 1 0
  have T2 := pointerDown_always_records { demo with tool := Tool.eyedropper } 0 0
  exact ⟨T1.1, T1.2.2.1, T2.2.2.2.1 rfl⟩

end PixelArt
